import Mathlib

/-!
Verification of the field-extraction heuristics and request-gating logic of the
cover-letter backend (`backend2.js`).

The JavaScript source is shallowly embedded over `List Char`:

* a small regular-expression engine (`RE`, `mrun`, `reSearchGo`) models the exact
  JavaScript regex constructs the source uses (literal runs, character classes,
  greedy and lazy counted repetition of a class, alternation in source order,
  optional pieces, one capture group, a zero-width lookahead, the word boundary
  `\b`, and the end anchor `$`), with the leftmost-start, backtracking first-match
  semantics of `String.prototype.match` without the `g` flag;
* `extractResumeData` and `analyzeJobDescription` are direct translations of the
  functions of the same names; `extractResumeData` returns `none` on input where
  the JavaScript indexes `lines[0]` on an empty array and hence throws;
* the `/analyze-jd` handler and the `verifyPayment` middleware are modelled as
  functions of the request fields they inspect.

JavaScript `\s` also covers exotic Unicode spaces; the embedding models the ASCII
whitespace characters, which is the fragment every claim exercises.
-/

/-- Convert a string literal to the `List Char` the embedding works on. -/
def s2l (s : String) : List Char := s.data

/-! ### Character classes of the source regexes -/

def isAsciiUpperC (c : Char) : Bool := 'A' ≤ c && c ≤ 'Z'

def isAsciiLowerC (c : Char) : Bool := 'a' ≤ c && c ≤ 'z'

def isAsciiLetterC (c : Char) : Bool := isAsciiUpperC c || isAsciiLowerC c

def isDigitC (c : Char) : Bool := '0' ≤ c && c ≤ '9'

def isAlphaNumC (c : Char) : Bool := isAsciiLetterC c || isDigitC c

/-- `\w` of JavaScript: `[A-Za-z0-9_]`. -/
def isWordC (c : Char) : Bool := isAlphaNumC c || c = '_'

/-- `\s` of JavaScript, restricted to the ASCII whitespace characters. -/
def isSpaceC (c : Char) : Bool :=
  c = ' ' || c = '\t' || c = '\n' || c = '\r' || c = Char.ofNat 11 || c = Char.ofNat 12

/-- `[A-Za-z0-9._%+-]`, the local part of the email regex. -/
def isLocalC (c : Char) : Bool :=
  isAlphaNumC c || c = '.' || c = '_' || c = '%' || c = '+' || c = '-'

/-- `[A-Za-z0-9.-]`, the domain part of the email regex. -/
def isDomC (c : Char) : Bool := isAlphaNumC c || c = '.' || c = '-'

/-- `[A-Z|a-z]`, the final class of the email regex: the class as written also
contains the literal bar character. -/
def isTldC (c : Char) : Bool := isAsciiLetterC c || c = '|'

/-- `[\s.-]`, the separator class of the phone regex. -/
def isPhoneSepC (c : Char) : Bool := isSpaceC c || c = '.' || c = '-'

/-- `[a-zA-Z0-9\s-]`, the tail of the captured company phrase. -/
def isCompanyTailC (c : Char) : Bool :=
  isAsciiLetterC c || isDigitC c || isSpaceC c || c = '-'

/-- `[^\n]`. -/
def isNotNlC (c : Char) : Bool := !(c = '\n')

/-- `[^]`: any character, including the newline. -/
def anyC (_ : Char) : Bool := true

/-! ### A backtracking regex engine for the constructs the source uses -/

/-- The regex constructs appearing in `backend2.js`.  Repetition is only ever
applied to a single character class in the source, which the constructors
`repGe` (for `*`, `+`, `{n,}`, lazily for `+?`) and `repBetween` (for `{n}`,
`{lo,hi}`, and class `?`) reflect. -/
inductive RE where
  | eps
  | cls (p : Char → Bool)
  | lit (cs : List Char) (ci : Bool)
  | seq (a b : RE)
  | alt (a b : RE)
  | repGe (n : Nat) (p : Char → Bool) (greedy : Bool)
  | repBetween (lo hi : Nat) (p : Char → Bool)
  | opt (a : RE)
  | look (a : RE)
  | wordB
  | endS
  | grp (a : RE)

/-- The capture of the (single) group of a regex, when one has matched. -/
abbrev Caps := Option (List Char)

/-- A match result: the group capture and the input remaining after the match. -/
abbrev MR := Caps × List Char

/-- Candidate repetition counts in greedy order: `m, m-1, ..., n` (empty when `m < n`). -/
def greedyCands (n m : Nat) : List Nat := (List.range (m + 1 - n)).map (fun i => m - i)

/-- Candidate repetition counts in lazy order: `n, n+1, ..., m` (empty when `m < n`). -/
def lazyCands (n m : Nat) : List Nat := (List.range (m + 1 - n)).map (fun i => n + i)

/-- Try candidates in order; the first one whose continuation succeeds wins. -/
def firstSome : List Nat → (Nat → Option MR) → Option MR
  | [], _ => none
  | a :: l, f =>
    match f a with
    | some r => some r
    | none => firstSome l f

/-- The character preceding the current position after consuming `t` characters of `s`. -/
def newPrev (prev : Option Char) (s : List Char) (t : Nat) : Option Char :=
  match (s.take t).getLast? with
  | some c => some c
  | none => prev

/-- Word-character test on an optional character; the ends of the input count as
non-word, as in the JavaScript `\b` semantics. -/
def optWord : Option Char → Bool
  | none => false
  | some c => isWordC c

/-- Literal match at the head of the input, optionally ASCII case-insensitive
(the `i` flag). -/
def litHere : Bool → List Char → List Char → Bool
  | _, [], _ => true
  | _, _ :: _, [] => false
  | ci, c :: cs, d :: ds =>
    (if ci then c.toLower == d.toLower else c == d) && litHere ci cs ds

/-- The backtracking matcher.  `mrun re prev s caps k` attempts `re` at the start
of `s` (`prev` being the character just before `s` inside the full subject, for
`\b`), threading the group capture `caps`, and calls the continuation `k` on
every way of matching, in the preference order of the JavaScript engine
(left alternative first, greedy prefers longer, lazy prefers shorter). -/
def mrun : RE → Option Char → List Char → Caps →
    (Option Char → List Char → Caps → Option MR) → Option MR
  | .eps, prev, s, caps, k => k prev s caps
  | .cls p, _, s, caps, k =>
    match s with
    | [] => none
    | c :: t => if p c then k (some c) t caps else none
  | .lit cs ci, prev, s, caps, k =>
    if litHere ci cs s then k (newPrev prev s cs.length) (s.drop cs.length) caps else none
  | .seq a b, prev, s, caps, k => mrun a prev s caps (fun p2 s2 c2 => mrun b p2 s2 c2 k)
  | .alt a b, prev, s, caps, k =>
    match mrun a prev s caps k with
    | some r => some r
    | none => mrun b prev s caps k
  | .repGe n p g, prev, s, caps, k =>
    firstSome (if g then greedyCands n (s.takeWhile p).length
               else lazyCands n (s.takeWhile p).length)
      (fun t => k (newPrev prev s t) (s.drop t) caps)
  | .repBetween lo hi p, prev, s, caps, k =>
    firstSome (greedyCands lo (min (s.takeWhile p).length hi))
      (fun t => k (newPrev prev s t) (s.drop t) caps)
  | .opt a, prev, s, caps, k =>
    match mrun a prev s caps k with
    | some r => some r
    | none => k prev s caps
  | .look a, prev, s, caps, k =>
    match mrun a prev s caps (fun _ s2 c2 => some (c2, s2)) with
    | some _ => k prev s caps
    | none => none
  | .wordB, prev, s, caps, k =>
    if optWord prev != optWord s.head? then k prev s caps else none
  | .endS, prev, s, caps, k =>
    match s with
    | [] => k prev [] caps
    | _ => none
  | .grp a, prev, s, caps, k =>
    mrun a prev s caps (fun p2 s2 _ => k p2 s2 (some (s.take (s.length - s2.length))))

/-- A single match attempt of the whole regex at a fixed position. -/
def runsAt (re : RE) (prev : Option Char) (s : List Char) : Option MR :=
  mrun re prev s none (fun _ s2 c2 => some (c2, s2))

/-- Scan start positions left to right, as `String.prototype.match` does, and
return, for the first position where the regex matches, the suffix scanned, the
capture, and the remaining input. -/
def reSearchGo (re : RE) : Option Char → List Char → Option (List Char × MR)
  | prev, [] =>
    match runsAt re prev [] with
    | some r => some ([], r)
    | none => none
  | prev, c :: t =>
    match runsAt re prev (c :: t) with
    | some r => some (c :: t, r)
    | none => reSearchGo re (some c) t

/-- `text.match(re)[0]`: the whole text of the first match, if any. -/
def jsMatch0 (re : RE) (s : List Char) : Option (List Char) :=
  match reSearchGo re none s with
  | some (suf, _, rest) => some (suf.take (suf.length - rest.length))
  | none => none

/-- `text.match(re)[1]`: the capture of group 1 of the first match, if any. -/
def jsMatch1 (re : RE) (s : List Char) : Option (List Char) :=
  match reSearchGo re none s with
  | some (_, caps, _) => caps
  | none => none

/-! ### The regexes of `backend2.js` -/

/-- `/\b[A-Za-z0-9._%+-]+@[A-Za-z0-9.-]+\.[A-Z|a-z]{2,}\b/` (line 318). -/
def emailRE : RE :=
  .seq .wordB
    (.seq (.repGe 1 isLocalC true)
      (.seq (.lit ['@'] false)
        (.seq (.repGe 1 isDomC true)
          (.seq (.lit ['.'] false)
            (.seq (.repGe 2 isTldC true) .wordB)))))

/-- `/(\+?\d{1,2}\s?)?\(?\d{3}\)?[\s.-]?\d{3}[\s.-]?\d{4}\b/` (line 320). -/
def phoneRE : RE :=
  .seq (.opt (.grp (.seq (.opt (.cls (· = '+')))
                     (.seq (.repBetween 1 2 isDigitC) (.opt (.cls isSpaceC))))))
    (.seq (.opt (.cls (· = '(')))
      (.seq (.repBetween 3 3 isDigitC)
        (.seq (.opt (.cls (· = ')')))
          (.seq (.opt (.cls isPhoneSepC))
            (.seq (.repBetween 3 3 isDigitC)
              (.seq (.opt (.cls isPhoneSepC))
                (.seq (.repBetween 4 4 isDigitC) .wordB)))))))

/-- Alternation of case-insensitive literals, in source order. -/
def altsToRE : List String → RE
  | [] => .eps
  | [a] => .lit (s2l a) true
  | a :: rest => .alt (.lit (s2l a) true) (altsToRE rest)

/-- `/(A|B|C):?\s*([^]+?)(?=\n\w+:|$)/i`, the section-capturing shape used for
the skills, experience and education sections (lines 324, 334, 343). -/
def sectionRE (alts : List String) : RE :=
  .seq (.grp (altsToRE alts))
    (.seq (.opt (.lit (s2l ":") false))
      (.seq (.repGe 0 isSpaceC true)
        (.seq (.grp (.repGe 1 anyC false))
          (.look (.alt (.seq (.lit (s2l "\n") false)
                          (.seq (.repGe 1 isWordC true) (.lit (s2l ":") false)))
                       .endS)))))

def skillsSecRE : RE := sectionRE ["skills", "technical skills", "key skills"]

def expSecRE : RE := sectionRE ["experience", "work history", "employment history"]

def eduSecRE : RE := sectionRE ["education", "academic background", "qualifications"]

/-- `/at\s+([A-Z][a-zA-Z0-9\s-]*)/i` (line 362); under the `i` flag `[A-Z]`
matches either case. -/
def reAtRE : RE :=
  .seq (.lit (s2l "at") true)
    (.seq (.repGe 1 isSpaceC true)
      (.grp (.seq (.cls isAsciiLetterC) (.repGe 0 isCompanyTailC true))))

/-- `/company:\s*([^\n]+)/i` (line 363). -/
def reCompanyColonRE : RE :=
  .seq (.lit (s2l "company:") true)
    (.seq (.repGe 0 isSpaceC true) (.grp (.repGe 1 isNotNlC true)))

/-- `/about\s+([A-Z][a-zA-Z0-9\s-]*)/i` (line 364). -/
def reAboutRE : RE :=
  .seq (.lit (s2l "about") true)
    (.seq (.repGe 1 isSpaceC true)
      (.grp (.seq (.cls isAsciiLetterC) (.repGe 0 isCompanyTailC true))))

/-- `/position:\s*([^\n]+)/i` (line 366). -/
def rePositionRE : RE :=
  .seq (.lit (s2l "position:") true)
    (.seq (.repGe 0 isSpaceC true) (.grp (.repGe 1 isNotNlC true)))

/-- `/role:\s*([^\n]+)/i` (line 367). -/
def reRoleColonRE : RE :=
  .seq (.lit (s2l "role:") true)
    (.seq (.repGe 0 isSpaceC true) (.grp (.repGe 1 isNotNlC true)))

/-- `/looking for a\s+([^\n]+)/i` (line 368). -/
def reLookingForRE : RE :=
  .seq (.lit (s2l "looking for a") true)
    (.seq (.repGe 1 isSpaceC true) (.grp (.repGe 1 isNotNlC true)))

/-- `/seeking a\s+([^\n]+)/i` (line 369). -/
def reSeekingRE : RE :=
  .seq (.lit (s2l "seeking a") true)
    (.seq (.repGe 1 isSpaceC true) (.grp (.repGe 1 isNotNlC true)))

/-! ### String helpers mirroring the JavaScript string operations -/

/-- `text.split('\n')`. -/
def splitNl : List Char → List (List Char)
  | [] => [[]]
  | c :: t =>
    if c = '\n' then [] :: splitNl t
    else
      match splitNl t with
      | [] => [[c]]
      | l :: ls => (c :: l) :: ls

/-- `s.trim()` (over the modelled whitespace set). -/
def trimB (l : List Char) : List Char :=
  ((l.dropWhile isSpaceC).reverse.dropWhile isSpaceC).reverse

/-- `hay.includes(needle)` (case-sensitive substring containment). -/
def hasSub (needle : List Char) : List Char → Bool
  | [] => needle.isEmpty
  | c :: t => needle.isPrefixOf (c :: t) || hasSub needle t

/-- The separator class `[,;â€¢]` of line 328: the bullet of the original file
survives as the three mis-decoded characters. -/
def isSepC (c : Char) : Bool := c = ',' || c = ';' || c = 'â' || c = '€' || c = '¢'

/-! `line.split(/[,;â€¢]+\s*/)`: each separator occurrence is a maximal run of
separator characters followed by a maximal run of whitespace.  `splitSepsGo`
accumulates the current token; `splitSepsSkip` is inside the separator run;
`splitSepsSkipWs` is inside its trailing whitespace (where a fresh separator
character starts a new separator occurrence, yielding an empty token, exactly
as `String.prototype.split` does). -/
mutual

def splitSepsGo (acc : List Char) : List Char → List (List Char)
  | [] => [acc.reverse]
  | c :: t =>
    if isSepC c then acc.reverse :: splitSepsSkip t else splitSepsGo (c :: acc) t

def splitSepsSkip : List Char → List (List Char)
  | [] => [[]]
  | c :: t =>
    if isSepC c then splitSepsSkip t
    else if isSpaceC c then splitSepsSkipWs t
    else splitSepsGo [c] t

def splitSepsSkipWs : List Char → List (List Char)
  | [] => [[]]
  | c :: t =>
    if isSpaceC c then splitSepsSkipWs t
    else if isSepC c then [] :: splitSepsSkip t
    else splitSepsGo [c] t

end

def splitSeps (l : List Char) : List (List Char) := splitSepsGo [] l

/-! ### The two extractors (lines 315-395) -/

/-- The record built by `extractResumeData`. -/
structure ResumeRec where
  name : List Char
  email : List Char
  phone : List Char
  experience : List (List Char)
  education : List (List Char)
  skills : List (List Char)
deriving DecidableEq

/-- The record built by `analyzeJobDescription`. -/
structure JobRec where
  company : List Char
  role : List Char
  requirements : List (List Char)
deriving DecidableEq

/-- `text.split('\n').filter(line => line.trim())` (line 316). -/
def nonBlankLines (text : List Char) : List (List Char) :=
  (splitNl text).filter (fun line => !(trimB line).isEmpty)

/-- Lines 326-330: the skill tokens produced from the whole text of a skills
section match: drop its first line, split the rest on separator runs, keep
tokens whose trimmed length exceeds 2, trim them. -/
def skillTokens (m0 : List Char) : List (List Char) :=
  ((((splitNl m0).drop 1).flatMap splitSeps).filter
    (fun sk => !(trimB sk).isEmpty && decide (2 < (trimB sk).length))).map trimB

/-- Lines 336-339 and 345-348: the entries produced from the whole text of an
experience or education section match: drop its first line, keep lines whose
trimmed length exceeds 10, trim them. -/
def sectionEntries (m0 : List Char) : List (List Char) :=
  (((splitNl m0).drop 1).filter
    (fun l => !(trimB l).isEmpty && decide (10 < (trimB l).length))).map trimB

/-- The `email` local of line 319: the first email-regex match, else the empty string. -/
def emailField (text : List Char) : List Char :=
  match jsMatch0 emailRE text with | some m => m | none => []

/-- The `phone` local of line 321. -/
def phoneField (text : List Char) : List Char :=
  match jsMatch0 phoneRE text with | some m => m | none => []

/-- The `skills` local of lines 323-331 (before the fallback of line 357). -/
def skillsPre (text : List Char) : List (List Char) :=
  match jsMatch0 skillsSecRE text with | some m0 => skillTokens m0 | none => []

/-- The `experience` local of lines 333-340 (before the fallback of line 355). -/
def experiencePre (text : List Char) : List (List Char) :=
  match jsMatch0 expSecRE text with | some m0 => sectionEntries m0 | none => []

/-- The `education` local of lines 342-349 (before the fallback of line 356). -/
def educationPre (text : List Char) : List (List Char) :=
  match jsMatch0 eduSecRE text with | some m0 => sectionEntries m0 | none => []

/-- `extractResumeData` (lines 315-359).  When the text has no non-blank line the
JavaScript evaluates `lines[0].trim()` on `undefined` and throws a `TypeError`;
that is modelled as `none`. -/
def extractResumeData (text : List Char) : Option ResumeRec :=
  match nonBlankLines text with
  | [] => none
  | l0 :: _ =>
    some
      { name := trimB l0
        email := emailField text
        phone := phoneField text
        experience :=
          if (experiencePre text).isEmpty then [s2l "Various professional experiences"]
          else experiencePre text
        education :=
          if (educationPre text).isEmpty then [s2l "Relevant educational background"]
          else educationPre text
        skills :=
          if (skillsPre text).isEmpty then [s2l "Various professional skills"]
          else skillsPre text }

/-- The phrase `'Bachelor\'s degree or higher'` of line 373 (codepoint 39 is the
apostrophe). -/
def degreePhrase : List Char := s2l "Bachelor" ++ [Char.ofNat 39] ++ s2l "s degree or higher"

/-- The curated keyword list of lines 378-384, in source order. -/
def skillKeywords : List (List Char) :=
  [s2l "JavaScript", s2l "Python", s2l "Java", s2l "C++", s2l "React", s2l "Angular",
   s2l "Node.js", s2l "SQL", s2l "NoSQL", s2l "AWS", s2l "Azure", s2l "Docker",
   s2l "Kubernetes", s2l "CI/CD", s2l "Agile", s2l "Scrum", s2l "Figma",
   s2l "Photoshop", s2l "Illustrator", s2l "SEO", s2l "SEM", s2l "Google Analytics",
   s2l "Email Marketing", s2l "Social Media", s2l "Content Creation"]

/-- The `companyMatch` local of lines 362-364: the three patterns are tried in
source order, the first match (JavaScript `||`) short-circuiting. -/
def companyMatch (jdText : List Char) : Option (List Char) :=
  match jsMatch1 reAtRE jdText with
  | some c => some c
  | none =>
    match jsMatch1 reCompanyColonRE jdText with
    | some c => some c
    | none => jsMatch1 reAboutRE jdText

/-- The `roleMatch` local of lines 366-369. -/
def roleMatch (jdText : List Char) : Option (List Char) :=
  match jsMatch1 rePositionRE jdText with
  | some c => some c
  | none =>
    match jsMatch1 reRoleColonRE jdText with
    | some c => some c
    | none =>
      match jsMatch1 reLookingForRE jdText with
      | some c => some c
      | none => jsMatch1 reSeekingRE jdText

/-- The `requirements` local of lines 371-388 (before the fallback of line 393):
five fixed substring triggers in source order, followed by the curated keyword
list filtered by substring containment, in list order. -/
def requirementsRaw (jdText : List Char) : List (List Char) :=
  (if hasSub (s2l "experience") jdText then [s2l "X years of experience"] else []) ++
  (if hasSub (s2l "degree") jdText then [degreePhrase] else []) ++
  (if hasSub (s2l "communication") jdText then [s2l "Strong communication skills"] else []) ++
  (if hasSub (s2l "team") jdText then [s2l "Team player"] else []) ++
  (if hasSub (s2l "leadership") jdText then [s2l "Leadership abilities"] else []) ++
  skillKeywords.filter (fun k => hasSub k jdText)

/-- `analyzeJobDescription` (lines 361-395). -/
def analyzeJobDescription (jdText : List Char) : JobRec :=
  { company := match companyMatch jdText with | some c => trimB c | none => s2l "the company"
    role := match roleMatch jdText with | some c => trimB c | none => s2l "the position"
    requirements :=
      if (requirementsRaw jdText).isEmpty then [s2l "Various skills and experiences"]
      else requirementsRaw jdText }

/-! ### The `/analyze-jd` endpoint and the payment middleware -/

/-- Responses of the `/analyze-jd` handler (lines 212-243). -/
inductive JdResp where
  | invalid
  | serverError
  | success (r : JobRec)
deriving DecidableEq

/-- The `/analyze-jd` handler: `body('jobDescription').isLength({ min: 20 })`
rejects a missing or short body field with the 400 validation response; on the
happy path the handler evaluates `analyzeJobDescription(jdText)` where `jdText`
is not defined anywhere in scope (the destructured variable is named
`jobDescription`, line 226), so a `ReferenceError` is raised, caught by the
surrounding `try`, and answered with the 500 response (lines 234-241), modelled
as `.serverError`. -/
def analyzeJdHandler (jobDescription : Option (List Char)) : JdResp :=
  match jobDescription with
  | none => .invalid
  | some jd => if jd.length < 20 then .invalid else .serverError

/-- Outcome of the external Razorpay `payments.fetch` call. -/
inductive GwStatus where
  | captured
  | notCaptured
  | fetchError
deriving DecidableEq

/-- Observable outcome of the `verifyPayment` middleware. -/
inductive PayOutcome where
  | proceed
  | payRequired
  | payNotCompleted
  | payError
deriving DecidableEq

/-- Outcome of `verifyPayment` together with the payment id it fetched from the
gateway, if it performed a fetch at all. -/
structure PayResult where
  outcome : PayOutcome
  fetched : Option (List Char)
deriving DecidableEq

/-- The promo code of line 124. -/
def promoCodeFree : List Char := s2l "070605"

/-- The `verifyPayment` middleware (lines 119-161) as a function of the two body
fields it reads and of the gateway behaviour.  A present-but-empty `paymentId`
is falsy in JavaScript, hence the extra emptiness test.  On a captured payment
the code then evaluates `Payment.create` although the `Payment` model only
exists in commented-out code (lines 65-72), so that path raises a
`ReferenceError` caught as the 500 response, modelled as `.payError`. -/
def verifyPayment (promoCode paymentId : Option (List Char))
    (gw : List Char → GwStatus) : PayResult :=
  if promoCode = some promoCodeFree then { outcome := .proceed, fetched := none }
  else
    match paymentId with
    | none => { outcome := .payRequired, fetched := none }
    | some pid =>
      if pid.isEmpty then { outcome := .payRequired, fetched := none }
      else
        match gw pid with
        | .captured => { outcome := .payError, fetched := some pid }
        | .notCaptured => { outcome := .payNotCompleted, fetched := some pid }
        | .fetchError => { outcome := .payError, fetched := some pid }

/-! ### Definitions written from the words of the specification and claims

These are deliberately phrased after the spec text (not after the code) so that
the refinement theorems below compare the two formulations. -/

/-- From the spec: company is obtained by trying, in order, (a) `at` plus a
capitalized phrase, (b) `company:` plus the rest of the line, (c) `about` plus a
capitalized phrase; the first successful pattern wins, its capture is trimmed,
and the placeholder `"the company"` is used when none match. -/
def companySpec (jd : List Char) : List Char :=
  match jsMatch1 reAtRE jd with
  | some c => trimB c
  | none =>
    match jsMatch1 reCompanyColonRE jd with
    | some c => trimB c
    | none =>
      match jsMatch1 reAboutRE jd with
      | some c => trimB c
      | none => s2l "the company"

/-- From the spec: the five trigger substrings and the phrases they append, in
the fixed check order. -/
def reqTriggers : List (List Char × List Char) :=
  [(s2l "experience", s2l "X years of experience"),
   (s2l "degree", degreePhrase),
   (s2l "communication", s2l "Strong communication skills"),
   (s2l "team", s2l "Team player"),
   (s2l "leadership", s2l "Leadership abilities")]

/-- From the spec: requirements are the phrases of the triggers whose substring
occurs, in the fixed check order, followed by the contained curated keywords in
list order, with a one-element placeholder when the result would be empty. -/
def requirementsSpec (jd : List Char) : List (List Char) :=
  let l := ((reqTriggers.filter fun pr => hasSub pr.1 jd).map Prod.snd) ++
    skillKeywords.filter (fun k => hasSub k jd)
  if l.isEmpty then [s2l "Various skills and experiences"] else l

/-- Decidable check for the email pattern exactly as the claim describes it
(local part of `[A-Za-z0-9._%+-]`, an `@`, domain of `[A-Za-z0-9.-]`, a dot, a
TLD of two or more letters, no word-boundary requirement), anchored at the head
of `s`. -/
def claimEmailAt (s : List Char) : Bool :=
  (List.range (s.length + 1)).any fun a =>
    (List.range (s.length + 1)).any fun b =>
      decide (1 ≤ a) && decide (1 ≤ b) && (s.take a).all isLocalC &&
      decide ((s.drop a).head? = some '@') &&
      ((s.drop (a + 1)).take b).all isDomC &&
      decide ((s.drop (a + 1 + b)).head? = some '.') &&
      decide (2 ≤ ((s.drop (a + 2 + b)).takeWhile isAsciiLetterC).length)

/-- Does some substring of `s` match the email pattern as the claim words it? -/
def claimEmailOccurs (s : List Char) : Bool :=
  (List.range (s.length + 1)).any fun i => claimEmailAt (s.drop i)

/-- A `\b` boundary between two optional characters (ends of input are non-word). -/
def boundaryOk (l r : Option Char) : Prop := optWord l ≠ optWord r

/-- Declarative reading of a match of the code email regex starting at the head
of `s` and leaving exactly `rest`: a decomposition into a non-empty local part,
`@`, a non-empty domain part, `.`, a TLD of two or more characters of
`[A-Z|a-z]`, with word boundaries on both sides. -/
def EmailSplit (prev : Option Char) (s rest : List Char) : Prop :=
  ∃ la lb lc, s = la ++ '@' :: (lb ++ '.' :: (lc ++ rest)) ∧
    la ≠ [] ∧ la.all isLocalC = true ∧
    lb ≠ [] ∧ lb.all isDomC = true ∧
    2 ≤ lc.length ∧ lc.all isTldC = true ∧
    boundaryOk prev la.head? ∧ boundaryOk lc.getLast? rest.head?

/-- Some match of the code email regex starts at the head of `s`. -/
def EmailStart (prev : Option Char) (s : List Char) : Prop :=
  ∃ rest, EmailSplit prev s rest

/-- The job text of the worked example in the spec and claims. -/
def acmeJdText : List Char :=
  s2l "We are looking for a Backend Engineer at Acme Corp. Must have experience with Docker and AWS."

/-- A resume text exhibiting the configuration of claim C4: a `Skills` heading,
the content line `Go, Rust; Python`, then a fresh heading line. -/
def resumeGoRust : List Char :=
  s2l "John Doe\nSkills:\nGo, Rust; Python\nEducation: University of Example"

/-- A resume text whose skill tokens sit on the heading line itself (claim C9). -/
def resumeInlineSkills : List Char :=
  s2l "John\nSkills: Go, Rust, Python\nEducation: BSc in Testing"

/-! ## Theorems

First some small lemmas shared by several claim theorems, then one theorem per
claim (with counterexamples and witnesses where applicable). -/

/-- A fallback of the shape `if l.isEmpty then fb else l` is never empty when
the fallback itself is not. -/
theorem ite_isEmpty_ne_nil {α : Type} (l fb : List α) (h : fb ≠ []) :
    (if l.isEmpty then fb else l) ≠ [] := by
  cases l with
  | nil => simpa using h
  | cons a t => simp

/-- A list without a newline is split by `splitNl` into itself alone. -/
theorem splitNl_of_no_newline (m : List Char) (h : m.all (fun c => !(c = '\n')) = true) :
    splitNl m = [m] := by
  induction m with
  | nil => rfl
  | cons c t ih =>
    simp only [List.all_cons, Bool.and_eq_true] at h
    unfold splitNl
    rw [if_neg (by simpa using h.1), ih h.2]

/-- C1, counterexample: on the empty text and on whitespace-only text,
`lines[0]` is `undefined` and the JavaScript `extractResumeData` throws a
`TypeError` instead of returning a record (modelled as `none`), refuting the
claim that both extractors return a fully-populated record on every input. -/
theorem c1_counterexample :
    extractResumeData (s2l "") = none ∧ extractResumeData (s2l " \t \n  ") = none := by
  decide

/-- C1, amended: `analyzeJobDescription` terminates on every text and its
requirements sequence is never empty; `extractResumeData` returns a record on
exactly the texts with a non-blank line, and that record has a non-empty name
and non-empty skills, experience and education sequences (the documented
fallback values); email and phone may be empty strings. -/
theorem c1_extractors_populate (text : List Char) :
    (analyzeJobDescription text).requirements ≠ [] ∧
    (nonBlankLines text ≠ [] →
      ∃ r, extractResumeData text = some r ∧
        r.name ≠ [] ∧ r.skills ≠ [] ∧ r.experience ≠ [] ∧ r.education ≠ []) := by
  constructor
  · exact ite_isEmpty_ne_nil _ _ (by simp)
  · intro h
    cases hl : nonBlankLines text with
    | nil => exact absurd hl h
    | cons l0 rest =>
      have hmem : l0 ∈ nonBlankLines text := by
        rw [hl]
        exact List.mem_cons_self _ _
      have hname : trimB l0 ≠ [] := by
        have h2 : l0 ∈ splitNl text ∧ ¬trimB l0 = [] := by
          simpa [nonBlankLines] using hmem
        exact h2.2
      have hx : extractResumeData text = some
          { name := trimB l0
            email := emailField text
            phone := phoneField text
            experience :=
              if (experiencePre text).isEmpty then [s2l "Various professional experiences"]
              else experiencePre text
            education :=
              if (educationPre text).isEmpty then [s2l "Relevant educational background"]
              else educationPre text
            skills :=
              if (skillsPre text).isEmpty then [s2l "Various professional skills"]
              else skillsPre text } := by
        unfold extractResumeData
        rw [hl]
      refine ⟨_, hx, hname, ?_, ?_, ?_⟩
      · exact ite_isEmpty_ne_nil _ _ (by simp)
      · exact ite_isEmpty_ne_nil _ _ (by simp)
      · exact ite_isEmpty_ne_nil _ _ (by simp)

/-- Witness for the amended C1 at the concrete text `"Jane Doe"`. -/
theorem c1_witness :
    nonBlankLines (s2l "Jane Doe") ≠ [] ∧
    (∃ r, extractResumeData (s2l "Jane Doe") = some r ∧
      r.name ≠ [] ∧ r.skills ≠ [] ∧ r.experience ≠ [] ∧ r.education ≠ []) :=
  ⟨by decide, (c1_extractors_populate (s2l "Jane Doe")).2 (by decide)⟩

/-- C2, code bug: the validation of the `/analyze-jd` endpoint behaves as
claimed, but on the happy path the handler evaluates
`analyzeJobDescription(jdText)` with `jdText` not in scope, so every valid
request (jobDescription of at least 20 characters) gets the 500 error response
instead of a success response carrying the job record. -/
theorem c2_analyze_jd_bug :
    analyzeJdHandler (some (s2l "We are looking for a Backend Engineer at Acme Corp.")) =
      JdResp.serverError ∧
    analyzeJdHandler (some (s2l "short")) = JdResp.invalid ∧
    analyzeJdHandler none = JdResp.invalid := by
  decide

/-- C3, counterexample: on the worked example the `looking for a` pattern
captures the whole remainder of the line, so the role is not the claimed
`"Backend Engineer"`. -/
theorem c3_counterexample :
    (analyzeJobDescription acmeJdText).role ≠ s2l "Backend Engineer" := by
  decide

/-- C3, amended: on the worked example the company is `"Acme Corp"` (the `at`
pattern, whose capture class stops at the dot), the role is the entire rest of
the line captured by the `looking for a` pattern, and the requirements are the
experience phrase followed by `AWS` and `Docker` in the fixed keyword-list
order (which also means the claimed entries are all present). -/
theorem c3_acme_analysis :
    analyzeJobDescription acmeJdText =
      { company := s2l "Acme Corp"
        role := s2l "Backend Engineer at Acme Corp. Must have experience with Docker and AWS."
        requirements := [s2l "X years of experience", s2l "AWS", s2l "Docker"] } := by
  decide

/-- C4, counterexample: on a text with a `Skills` heading followed by
`Go, Rust; Python` and a fresh heading line, the skills are
`["Rust", "Python"]` — the token `Go` is discarded by the strict
`trimmed length > 2` filter — not the claimed three-element sequence. -/
theorem c4_counterexample :
    (extractResumeData resumeGoRust).map ResumeRec.skills = some [s2l "Rust", s2l "Python"] ∧
    (extractResumeData resumeGoRust).map ResumeRec.skills ≠
      some [s2l "Go", s2l "Rust", s2l "Python"] := by
  decide

/-- C4, amended: every text whose first skills-section match is exactly
`"Skills:\nGo, Rust; Python"` (and that has a non-blank line, so extraction
returns at all) yields the skills `["Rust", "Python"]`, in order and trimmed;
`Go` is dropped because only tokens of trimmed length strictly greater than 2
are kept. -/
theorem c4_skills_example (text : List Char) (hnb : nonBlankLines text ≠ [])
    (hm : jsMatch0 skillsSecRE text = some (s2l "Skills:\nGo, Rust; Python")) :
    ∃ r, extractResumeData text = some r ∧ r.skills = [s2l "Rust", s2l "Python"] := by
  have hpre : skillsPre text = [s2l "Rust", s2l "Python"] := by
    unfold skillsPre
    rw [hm]
    decide
  cases hl : nonBlankLines text with
  | nil => exact absurd hl hnb
  | cons l0 rest =>
    have hx : extractResumeData text = some
        { name := trimB l0
          email := emailField text
          phone := phoneField text
          experience :=
            if (experiencePre text).isEmpty then [s2l "Various professional experiences"]
            else experiencePre text
          education :=
            if (educationPre text).isEmpty then [s2l "Relevant educational background"]
            else educationPre text
          skills :=
            if (skillsPre text).isEmpty then [s2l "Various professional skills"]
            else skillsPre text } := by
      unfold extractResumeData
      rw [hl]
    refine ⟨_, hx, ?_⟩
    show (if (skillsPre text).isEmpty then [s2l "Various professional skills"]
          else skillsPre text) = [s2l "Rust", s2l "Python"]
    rw [hpre]
    decide

/-- Witness for the amended C4 at the concrete resume text. -/
theorem c4_witness :
    ∃ r, extractResumeData resumeGoRust = some r ∧ r.skills = [s2l "Rust", s2l "Python"] :=
  c4_skills_example resumeGoRust (by decide) (by decide)

/-- C8: both extractors are pure functions of their text argument in this
embedding (they are Lean functions, and the JavaScript bodies read no state
beyond the argument), so two calls on identical text give identical records. -/
theorem c8_extractors_deterministic (t : List Char) :
    extractResumeData t = extractResumeData t ∧
    analyzeJobDescription t = analyzeJobDescription t :=
  ⟨rfl, rfl⟩

/-- C9: the skills pipeline drops the first line of the matched section
(`slice(1)`), so whenever the matched section text is a single line — in
particular when all skill tokens sit on the heading line itself, with a fresh
heading or the end of text right after — the skills resolve to the placeholder
sequence, not to the inline tokens. -/
theorem c9_heading_line_tokens_discarded (text m : List Char)
    (hnb : nonBlankLines text ≠ [])
    (hm : jsMatch0 skillsSecRE text = some m)
    (hnl : m.all (fun c => !(c = '\n')) = true) :
    ∃ r, extractResumeData text = some r ∧ r.skills = [s2l "Various professional skills"] := by
  have hpre : skillsPre text = [] := by
    unfold skillsPre
    rw [hm]
    show skillTokens m = []
    unfold skillTokens
    rw [splitNl_of_no_newline m hnl]
    rfl
  cases hl : nonBlankLines text with
  | nil => exact absurd hl hnb
  | cons l0 rest =>
    have hx : extractResumeData text = some
        { name := trimB l0
          email := emailField text
          phone := phoneField text
          experience :=
            if (experiencePre text).isEmpty then [s2l "Various professional experiences"]
            else experiencePre text
          education :=
            if (educationPre text).isEmpty then [s2l "Relevant educational background"]
            else educationPre text
          skills :=
            if (skillsPre text).isEmpty then [s2l "Various professional skills"]
            else skillsPre text } := by
      unfold extractResumeData
      rw [hl]
    refine ⟨_, hx, ?_⟩
    show (if (skillsPre text).isEmpty then [s2l "Various professional skills"]
          else skillsPre text) = [s2l "Various professional skills"]
    rw [hpre]
    rfl

/-- Witness for C9 at a text whose skill tokens all sit on the heading line. -/
theorem c9_witness :
    ∃ r, extractResumeData resumeInlineSkills = some r ∧
      r.skills = [s2l "Various professional skills"] :=
  c9_heading_line_tokens_discarded resumeInlineSkills (s2l "Skills: Go, Rust, Python")
    (by decide) (by decide) (by decide)

/-- C10: a request whose `promoCode` equals `"070605"` passes the payment
middleware unconditionally: the outcome is to proceed to the handler, no
gateway fetch is attempted, and no payment error is produced, whatever the
`paymentId` field and the gateway behaviour are. -/
theorem c10_promo_code_bypasses_payment (paymentId : Option (List Char))
    (gw : List Char → GwStatus) :
    verifyPayment (some promoCodeFree) paymentId gw =
      { outcome := PayOutcome.proceed, fetched := none } := by
  unfold verifyPayment
  rw [if_pos rfl]

/-- C6, counterexample: the claim describes patterns (a) and (c) as requiring a
capitalized phrase, but the regexes carry the `i` flag, under which `[A-Z]`
matches either case: on `"employment at acme corp"` all three claimed patterns
fail (no capitalized phrase, no `company:` line, no `about`), so the claim
predicts the placeholder, yet the code captures `"acme corp"`. -/
theorem c6_counterexample :
    (analyzeJobDescription (s2l "employment at acme corp")).company = s2l "acme corp" ∧
    (analyzeJobDescription (s2l "employment at acme corp")).company ≠ s2l "the company" ∧
    isAsciiUpperC 'a' = false := by
  decide

/-- C6, amended: for every job text the company field is computed by trying the
three patterns in the fixed precedence order `at`, `company:`, `about` — with
the captured phrase of (a) and (c) starting with a letter of either case, since
the `i` flag applies to the `[A-Z]` class; the first match supplies the trimmed
capture, later patterns are not consulted, and the placeholder `"the company"`
is used when none match — the code agrees with the specification-worded
`companySpec` on every input. -/
theorem c6_company_precedence (jd : List Char) :
    (analyzeJobDescription jd).company = companySpec jd := by
  show (match companyMatch jd with | some c => trimB c | none => s2l "the company") = _
  unfold companyMatch companySpec
  cases jsMatch1 reAtRE jd <;> cases jsMatch1 reCompanyColonRE jd <;>
    cases jsMatch1 reAboutRE jd <;> rfl

/-- The appended conditional singletons of the source equal the filtered
fixed candidate list of the spec wording. -/
theorem requirementsRaw_eq_spec_list (jd : List Char) :
    requirementsRaw jd =
      ((reqTriggers.filter fun pr => hasSub pr.1 jd).map Prod.snd) ++
        skillKeywords.filter (fun k => hasSub k jd) := by
  unfold requirementsRaw reqTriggers
  by_cases h1 : hasSub (s2l "experience") jd = true <;>
    by_cases h2 : hasSub (s2l "degree") jd = true <;>
      by_cases h3 : hasSub (s2l "communication") jd = true <;>
        by_cases h4 : hasSub (s2l "team") jd = true <;>
          by_cases h5 : hasSub (s2l "leadership") jd = true <;>
            simp [h1, h2, h3, h4, h5]

/-- C7: the requirements sequence lists its entries in the fixed check order —
the five trigger phrases, then the curated keywords in list order — independent
of where the substrings occur in the text (it equals the filter of the fixed
candidate list), and when no trigger and no keyword occurs it is exactly the
one-element placeholder sequence. -/
theorem c7_requirements_fixed_order (jd : List Char) :
    (analyzeJobDescription jd).requirements = requirementsSpec jd ∧
    ((reqTriggers.all fun pr => !hasSub pr.1 jd) = true →
      (skillKeywords.all fun k => !hasSub k jd) = true →
      (analyzeJobDescription jd).requirements = [s2l "Various skills and experiences"]) := by
  have hbase : (analyzeJobDescription jd).requirements =
      if (requirementsRaw jd).isEmpty then [s2l "Various skills and experiences"]
      else requirementsRaw jd := rfl
  constructor
  · rw [hbase]
    unfold requirementsSpec
    rw [requirementsRaw_eq_spec_list jd]
  · intro hTrig hKw
    rw [hbase]
    have h0 : requirementsRaw jd = [] := by
      rw [requirementsRaw_eq_spec_list jd]
      have hfa : ∀ pr ∈ reqTriggers, ¬(hasSub pr.1 jd = true) := by
        intro pr hpr
        have h := List.all_eq_true.mp hTrig pr hpr
        simpa using h
      have hfk : ∀ k ∈ skillKeywords, ¬(hasSub k jd = true) := by
        intro k hk
        have h := List.all_eq_true.mp hKw k hk
        simpa using h
      rw [List.filter_eq_nil_iff.mpr hfa, List.filter_eq_nil_iff.mpr hfk]
      rfl
    rw [h0]
    rfl

/-- Witness for C7 at a text containing no trigger and no keyword. -/
theorem c7_witness :
    (reqTriggers.all fun pr => !hasSub pr.1 (s2l "zzz")) = true ∧
    (skillKeywords.all fun k => !hasSub k (s2l "zzz")) = true ∧
    (analyzeJobDescription (s2l "zzz")).requirements = [s2l "Various skills and experiences"] :=
  ⟨by decide, by decide, (c7_requirements_fixed_order (s2l "zzz")).2 (by decide) (by decide)⟩

theorem firstSome_eq_none_iff (l : List Nat) (f : Nat → Option MR) :
    firstSome l f = none ↔ ∀ t ∈ l, f t = none := by
  induction l with
  | nil => simp [firstSome]
  | cons a l ih =>
    unfold firstSome
    cases hfa : f a with
    | some r => simp [hfa]
    | none => simpa [hfa] using ih

theorem firstSome_eq_some (l : List Nat) (f : Nat → Option MR) (r : MR)
    (h : firstSome l f = some r) : ∃ t ∈ l, f t = some r := by
  induction l with
  | nil => simp [firstSome] at h
  | cons a l ih =>
    unfold firstSome at h
    cases hfa : f a with
    | some r2 =>
      rw [hfa] at h
      exact ⟨a, List.mem_cons_self _ _, by simpa using h ▸ hfa⟩
    | none =>
      rw [hfa] at h
      obtain ⟨t, ht, hft⟩ := ih h
      exact ⟨t, List.mem_cons_of_mem _ ht, hft⟩

theorem mem_greedyCands (n m t : Nat) : t ∈ greedyCands n m ↔ n ≤ t ∧ t ≤ m := by
  unfold greedyCands
  simp only [List.mem_map, List.mem_range]
  constructor
  · rintro ⟨i, hi, rfl⟩
    omega
  · rintro ⟨h1, h2⟩
    exact ⟨m - t, by omega, by omega⟩

theorem take_all_of_le_takeWhile (p : Char → Bool) (l : List Char) (t : Nat)
    (h : t ≤ (l.takeWhile p).length) : (l.take t).all p = true := by
  induction l generalizing t with
  | nil => simp at h; simp [h]
  | cons c l2 ih =>
    cases hp : p c with
    | true =>
      cases t with
      | zero => simp
      | succ t2 =>
        have h2 : t2 + 1 ≤ (List.takeWhile p l2).length + 1 := by
          simpa [List.takeWhile_cons, hp] using h
        simp only [List.take_succ_cons, List.all_cons, hp, Bool.true_and]
        exact ih t2 (by omega)
    | false =>
      rw [List.takeWhile_cons, hp] at h
      simp at h
      simp [h]

theorem takeWhile_length_ge (p : Char → Bool) (la z : List Char)
    (h : la.all p = true) : la.length ≤ ((la ++ z).takeWhile p).length := by
  induction la with
  | nil => simp
  | cons c l2 ih =>
    simp only [List.all_cons, Bool.and_eq_true] at h
    simp only [List.cons_append, List.takeWhile_cons, h.1, List.length_cons]
    exact Nat.succ_le_succ (ih h.2)

theorem eq_cons_drop_one_of_head (l : List Char) (ch : Char) (h : l.head? = some ch) :
    l = ch :: l.drop 1 := by
  cases l with
  | nil => simp at h
  | cons d t =>
    simp only [List.head?_cons, Option.some.injEq] at h
    simp [h]

theorem litHere_singleton (ch : Char) (l : List Char) :
    litHere false [ch] l = true ↔ l.head? = some ch := by
  cases l with
  | nil => simp [litHere]
  | cons d t =>
    simp [litHere]
    exact eq_comm

theorem length_takeWhile_le (p : Char → Bool) (l : List Char) :
    (l.takeWhile p).length ≤ l.length := by
  induction l with
  | nil => simp
  | cons c t ih =>
    rw [List.takeWhile_cons]
    cases p c with
    | true => simpa using ih
    | false => simp

theorem newPrev_of_take_ne_nil (prev : Option Char) (s : List Char) (t : Nat)
    (h : s.take t ≠ []) : newPrev prev s t = (s.take t).getLast? := by
  unfold newPrev
  cases hgl : (s.take t).getLast? with
  | none => exact absurd (List.getLast?_eq_none_iff.mp hgl) h
  | some x => rfl

theorem head?_take_of_pos (s : List Char) (a : Nat) (h : 1 ≤ a) :
    (s.take a).head? = s.head? := by
  cases s with
  | nil => simp
  | cons c t =>
    cases a with
    | zero => omega
    | succ a2 => simp

set_option maxHeartbeats 1000000 in
theorem emailRun_sound (prev : Option Char) (s : List Char) (c : Caps) (r : List Char)
    (h : runsAt emailRE prev s = some (c, r)) : EmailSplit prev s r := by
  simp only [runsAt, emailRE, mrun, if_true, List.length_singleton, List.drop_drop] at h
  by_cases hbd : (optWord prev != optWord s.head?) = true
  case neg => simp [hbd] at h
  rw [if_pos hbd] at h
  obtain ⟨a, haMem, ha⟩ := firstSome_eq_some _ _ _ h
  rw [mem_greedyCands] at haMem
  by_cases hAt : litHere false ['@'] (List.drop a s) = true
  case neg => simp [hAt] at ha
  rw [if_pos hAt] at ha
  obtain ⟨b, hbMem, hb2⟩ := firstSome_eq_some _ _ _ ha
  rw [mem_greedyCands] at hbMem
  by_cases hDot : litHere false ['.'] (List.drop (a + 1 + b) s) = true
  case neg => simp [hDot] at hb2
  rw [if_pos hDot] at hb2
  obtain ⟨tc, htcMem, htc⟩ := firstSome_eq_some _ _ _ hb2
  rw [mem_greedyCands] at htcMem
  by_cases hB2 : (optWord
      (newPrev (newPrev (newPrev (newPrev (newPrev prev s a) (List.drop a s) 1)
        (List.drop (a + 1) s) b) (List.drop (a + 1 + b) s) 1)
        (List.drop (a + 1 + b + 1) s) tc) !=
      optWord (List.drop (a + 1 + b + 1 + tc) s).head?) = true
  case neg =>
    rw [if_neg hB2] at htc
    exact Option.noConfusion htc
  rw [if_pos hB2] at htc
  simp only [Option.some.injEq, Prod.mk.injEq] at htc
  obtain ⟨hc, hr⟩ := htc
  subst hr
  -- facts about the suffixes
  have hA2 : (s.drop a).head? = some '@' := (litHere_singleton _ _).mp hAt
  have hA4 : (s.drop (a + 1 + b)).head? = some '.' := (litHere_singleton _ _).mp hDot
  have hwl1 := length_takeWhile_le isLocalC s
  have hwl2 := length_takeWhile_le isDomC (s.drop (a + 1))
  have hwl3 := length_takeWhile_le isTldC (s.drop (a + 1 + b + 1))
  have e2 : s.drop a = '@' :: s.drop (a + 1) := by
    have e := eq_cons_drop_one_of_head (s.drop a) '@' hA2
    rwa [List.drop_drop] at e
  have e3 : s.drop (a + 1) = (s.drop (a + 1)).take b ++ s.drop (a + 1 + b) := by
    conv_lhs => rw [← List.take_append_drop b (s.drop (a + 1))]
    rw [List.drop_drop]
  have e4 : s.drop (a + 1 + b) = '.' :: s.drop (a + 1 + b + 1) := by
    have e := eq_cons_drop_one_of_head (s.drop (a + 1 + b)) '.' hA4
    rwa [List.drop_drop] at e
  have e5 : s.drop (a + 1 + b + 1) =
      (s.drop (a + 1 + b + 1)).take tc ++ s.drop (a + 1 + b + 1 + tc) := by
    conv_lhs => rw [← List.take_append_drop tc (s.drop (a + 1 + b + 1))]
    rw [List.drop_drop]
  have hdecomp : s = s.take a ++ '@' :: ((s.drop (a + 1)).take b ++ '.' ::
      ((s.drop (a + 1 + b + 1)).take tc ++ s.drop (a + 1 + b + 1 + tc))) := by
    conv_lhs => rw [← List.take_append_drop a s, e2, e3, e4, e5]
  have hlcLen : ((s.drop (a + 1 + b + 1)).take tc).length = tc := by
    rw [List.length_take]
    omega
  have hlcNe : (s.drop (a + 1 + b + 1)).take tc ≠ [] := by
    intro hnil
    rw [hnil] at hlcLen
    simp at hlcLen
    omega
  refine ⟨s.take a, (s.drop (a + 1)).take b, (s.drop (a + 1 + b + 1)).take tc,
    hdecomp, ?_, ?_, ?_, ?_, ?_, ?_, ?_, ?_⟩
  · intro hnil
    rw [List.take_eq_nil_iff] at hnil
    rcases hnil with h0 | h0
    · omega
    · rw [h0] at haMem
      simp at haMem
      omega
  · exact take_all_of_le_takeWhile _ _ _ haMem.2
  · intro hnil
    rw [List.take_eq_nil_iff] at hnil
    rcases hnil with h0 | h0
    · omega
    · rw [h0] at hbMem
      simp at hbMem
      omega
  · exact take_all_of_le_takeWhile _ _ _ hbMem.2
  · rw [hlcLen]
    exact htcMem.1
  · exact take_all_of_le_takeWhile _ _ _ htcMem.2
  · show optWord prev ≠ optWord (s.take a).head?
    rw [head?_take_of_pos s a haMem.1]
    exact bne_iff_ne.mp hbd
  · show optWord ((s.drop (a + 1 + b + 1)).take tc).getLast? ≠
      optWord (s.drop (a + 1 + b + 1 + tc)).head?
    rw [newPrev_of_take_ne_nil _ _ _ hlcNe] at hB2
    exact bne_iff_ne.mp hB2

theorem firstSome_ne_none (l : List Nat) (f : Nat → Option MR) (t : Nat)
    (ht : t ∈ l) (h : f t ≠ none) : firstSome l f ≠ none := by
  intro h0
  exact h ((firstSome_eq_none_iff l f).mp h0 t ht)

set_option maxHeartbeats 1000000 in
theorem emailRun_complete (prev : Option Char) (s : List Char) (h : EmailStart prev s) :
    runsAt emailRE prev s ≠ none := by
  obtain ⟨r, la, lb, lc, hs, hla, hlaAll, hlb, hlbAll, hlc2, hlcAll, hbd1, hbd2⟩ := h
  have hlaPos : 1 ≤ la.length := List.length_pos.mpr hla
  have hlbPos : 1 ≤ lb.length := List.length_pos.mpr hlb
  have hlcNe : lc ≠ [] := by
    intro h0
    rw [h0] at hlc2
    simp at hlc2
  have hhead : s.head? = la.head? := by
    rw [hs]
    cases la with
    | nil => exact absurd rfl hla
    | cons x xs => simp
  have hdropA : s.drop la.length = '@' :: (lb ++ '.' :: (lc ++ r)) := by
    rw [hs]
    exact List.drop_left _ _
  have hdrop1 : s.drop (la.length + 1) = lb ++ '.' :: (lc ++ r) := by
    rw [hs]
    rw [show la ++ '@' :: (lb ++ '.' :: (lc ++ r)) =
      (la ++ ['@']) ++ (lb ++ '.' :: (lc ++ r)) by simp]
    exact List.drop_left' (by simp)
  have hdrop2 : s.drop (la.length + 1 + lb.length) = '.' :: (lc ++ r) := by
    rw [hs]
    rw [show la ++ '@' :: (lb ++ '.' :: (lc ++ r)) =
      ((la ++ ['@']) ++ lb) ++ '.' :: (lc ++ r) by simp]
    exact List.drop_left' (by simp; omega)
  have hdrop3 : s.drop (la.length + 1 + lb.length + 1) = lc ++ r := by
    rw [hs]
    rw [show la ++ '@' :: (lb ++ '.' :: (lc ++ r)) =
      (((la ++ ['@']) ++ lb) ++ ['.']) ++ (lc ++ r) by simp]
    exact List.drop_left' (by simp; omega)
  have hdrop4 : s.drop (la.length + 1 + lb.length + 1 + lc.length) = r := by
    rw [hs]
    rw [show la ++ '@' :: (lb ++ '.' :: (lc ++ r)) =
      ((((la ++ ['@']) ++ lb) ++ ['.']) ++ lc) ++ r by simp]
    exact List.drop_left' (by simp; omega)
  simp only [runsAt, emailRE, mrun, if_true, List.length_singleton, List.drop_drop]
  rw [if_pos (show (optWord prev != optWord s.head?) = true by
    rw [hhead]
    exact bne_iff_ne.mpr hbd1)]
  refine firstSome_ne_none _ _ la.length ?_ ?_
  · rw [mem_greedyCands]
    refine ⟨hlaPos, ?_⟩
    rw [hs]
    exact takeWhile_length_ge isLocalC la _ hlaAll
  · show (if litHere false ['@'] (List.drop la.length s) = true then _ else none) ≠ none
    rw [hdropA, if_pos (by simp [litHere])]
    refine firstSome_ne_none _ _ lb.length ?_ ?_
    · rw [mem_greedyCands]
      refine ⟨hlbPos, ?_⟩
      rw [hdrop1]
      exact takeWhile_length_ge isDomC lb _ hlbAll
    · show (if litHere false ['.'] (List.drop (la.length + 1 + lb.length) s) = true
        then _ else none) ≠ none
      rw [hdrop2, if_pos (by simp [litHere])]
      refine firstSome_ne_none _ _ lc.length ?_ ?_
      · rw [mem_greedyCands]
        refine ⟨hlc2, ?_⟩
        rw [hdrop3]
        exact takeWhile_length_ge isTldC lc _ hlcAll
      · have htake : (s.drop (la.length + 1 + lb.length + 1)).take lc.length = lc := by
          rw [hdrop3]
          exact List.take_left lc r
        have hnp : newPrev
            (newPrev (newPrev (newPrev (newPrev prev s la.length)
              ('@' :: (lb ++ '.' :: (lc ++ r))) 1) (List.drop (la.length + 1) s) lb.length)
              ('.' :: (lc ++ r)) 1)
            (List.drop (la.length + 1 + lb.length + 1) s) lc.length = lc.getLast? := by
          rw [newPrev_of_take_ne_nil _ _ _ (by rw [htake]; exact hlcNe), htake]
        show (if _ = true then _ else none) ≠ none
        rw [if_pos ?_]
        · simp
        · rw [hnp, hdrop4]
          exact bne_iff_ne.mpr hbd2

theorem newPrev_zero (prev : Option Char) (s : List Char) : newPrev prev s 0 = prev := by
  simp [newPrev]

theorem newPrev_none (s : List Char) (i : Nat) :
    newPrev none s i = (s.take i).getLast? := by
  unfold newPrev
  cases (s.take i).getLast? <;> rfl

theorem newPrev_cons (prev : Option Char) (c : Char) (t : List Char) (i : Nat) :
    newPrev prev (c :: t) (i + 1) = newPrev (some c) t i := by
  unfold newPrev
  rw [List.take_succ_cons]
  cases htk : t.take i with
  | nil => simp
  | cons x xs =>
    rw [List.getLast?_cons_cons]
    cases hgl : (x :: xs).getLast? with
    | some y => rfl
    | none => exact absurd (List.getLast?_eq_none_iff.mp hgl) (by simp)

theorem reSearchGo_eq_none_all (re : RE) (s : List Char) :
    ∀ prev : Option Char, reSearchGo re prev s = none →
      ∀ i, runsAt re (newPrev prev s i) (s.drop i) = none := by
  induction s with
  | nil =>
    intro prev h i
    unfold reSearchGo at h
    cases h0 : runsAt re prev [] with
    | some r =>
      rw [h0] at h
      exact Option.noConfusion h
    | none =>
      simpa [newPrev] using h0
  | cons c t ih =>
    intro prev h i
    unfold reSearchGo at h
    cases h0 : runsAt re prev (c :: t) with
    | some r =>
      rw [h0] at h
      exact Option.noConfusion h
    | none =>
      rw [h0] at h
      cases i with
      | zero => simpa [newPrev] using h0
      | succ i2 =>
        rw [newPrev_cons, List.drop_succ_cons]
        exact ih (some c) h i2

theorem reSearchGo_eq_some_all (re : RE) (s : List Char) :
    ∀ (prev : Option Char) (suf : List Char) (c2 : Caps) (r : List Char),
      reSearchGo re prev s = some (suf, c2, r) →
      ∃ i, suf = s.drop i ∧
        runsAt re (newPrev prev s i) (s.drop i) = some (c2, r) ∧
        ∀ j, j < i → runsAt re (newPrev prev s j) (s.drop j) = none := by
  induction s with
  | nil =>
    intro prev suf c2 r h
    unfold reSearchGo at h
    cases h0 : runsAt re prev [] with
    | some mr =>
      rw [h0] at h
      simp only [Option.some.injEq, Prod.mk.injEq] at h
      obtain ⟨h4, h5⟩ := h
      refine ⟨0, by simp [h4], ?_, by omega⟩
      rw [newPrev_zero, List.drop_nil, h0, h5]
    | none =>
      rw [h0] at h
      exact Option.noConfusion h
  | cons c t ih =>
    intro prev suf c2 r h
    unfold reSearchGo at h
    cases h0 : runsAt re prev (c :: t) with
    | some mr =>
      rw [h0] at h
      simp only [Option.some.injEq, Prod.mk.injEq] at h
      obtain ⟨h4, h5⟩ := h
      refine ⟨0, by simp [h4], ?_, by omega⟩
      rw [newPrev_zero, List.drop_zero, h0, h5]
    | none =>
      rw [h0] at h
      obtain ⟨i, h1, h2, h3⟩ := ih (some c) suf c2 r h
      refine ⟨i + 1, ?_, ?_, ?_⟩
      · rw [List.drop_succ_cons]
        exact h1
      · rw [newPrev_cons, List.drop_succ_cons]
        exact h2
      · intro j hj
        cases j with
        | zero => simpa [newPrev] using h0
        | succ j2 =>
          rw [newPrev_cons, List.drop_succ_cons]
          exact h3 j2 (by omega)

/-- C5, counterexample: the text `"John\na@b.c|d"` contains no substring of
the email pattern as the claim words it (the TLD would need two or more
letters), yet the extracted email is `"a@b.c|d"`, not the empty string: the
class `[A-Z|a-z]` of the code also accepts the bar character. -/
theorem c5_counterexample :
    (extractResumeData (s2l "John\na@b.c|d")).map ResumeRec.email = some (s2l "a@b.c|d") ∧
    claimEmailOccurs (s2l "John\na@b.c|d") = false := by
  decide

set_option maxHeartbeats 1000000 in
/-- C5, amended: on every text with a non-blank line, either no position of the
text starts a match of the code email pattern (non-empty local part of
`[A-Za-z0-9._%+-]`, `@`, non-empty domain of `[A-Za-z0-9.-]`, a dot, two or
more characters of `[A-Z|a-z]`, word boundaries on both sides) and the email
field is the empty string, or the email field is a substring that starts at the
leftmost position admitting such a match and itself decomposes as one. -/
theorem c5_email_first_match (text : List Char) (hnb : nonBlankLines text ≠ []) :
    ∃ r, extractResumeData text = some r ∧
      ((r.email = [] ∧ ∀ i, ¬ EmailStart ((text.take i).getLast?) (text.drop i)) ∨
       (∃ i rest, EmailSplit ((text.take i).getLast?) (text.drop i) rest ∧
          r.email = (text.drop i).take ((text.drop i).length - rest.length) ∧
          ∀ j, j < i → ¬ EmailStart ((text.take j).getLast?) (text.drop j))) := by
  cases hl : nonBlankLines text with
  | nil => exact absurd hl hnb
  | cons l0 rest0 =>
    have hx : extractResumeData text = some
        { name := trimB l0
          email := emailField text
          phone := phoneField text
          experience :=
            if (experiencePre text).isEmpty then [s2l "Various professional experiences"]
            else experiencePre text
          education :=
            if (educationPre text).isEmpty then [s2l "Relevant educational background"]
            else educationPre text
          skills :=
            if (skillsPre text).isEmpty then [s2l "Various professional skills"]
            else skillsPre text } := by
      unfold extractResumeData
      rw [hl]
    refine ⟨_, hx, ?_⟩
    show (emailField text = [] ∧ _) ∨ _
    cases hsearch : reSearchGo emailRE none text with
    | none =>
      left
      constructor
      · unfold emailField jsMatch0
        rw [hsearch]
      · intro i hstart
        have hnone := reSearchGo_eq_none_all emailRE text none hsearch i
        rw [newPrev_none] at hnone
        exact emailRun_complete _ _ hstart hnone
    | some val =>
      obtain ⟨suf, c2, r2⟩ := val
      right
      obtain ⟨i, h1, h2, h3⟩ := reSearchGo_eq_some_all emailRE text none suf c2 r2 hsearch
      refine ⟨i, r2, ?_, ?_, ?_⟩
      · rw [newPrev_none] at h2
        exact emailRun_sound _ _ _ _ h2
      · show emailField text = _
        unfold emailField jsMatch0
        rw [hsearch, h1]
      · intro j hj hstart
        have hnone := h3 j hj
        rw [newPrev_none] at hnone
        exact emailRun_complete _ _ hstart hnone

/-- Witness for the amended C5 at a concrete text containing an address. -/
theorem c5_witness :
    ∃ r, extractResumeData (s2l "mail me\nat ab@cd.ef now") = some r ∧
      ((r.email = [] ∧ ∀ i, ¬ EmailStart (((s2l "mail me\nat ab@cd.ef now").take i).getLast?)
          ((s2l "mail me\nat ab@cd.ef now").drop i)) ∨
       (∃ i rest, EmailSplit (((s2l "mail me\nat ab@cd.ef now").take i).getLast?)
          ((s2l "mail me\nat ab@cd.ef now").drop i) rest ∧
          r.email = ((s2l "mail me\nat ab@cd.ef now").drop i).take
            (((s2l "mail me\nat ab@cd.ef now").drop i).length - rest.length) ∧
          ∀ j, j < i → ¬ EmailStart (((s2l "mail me\nat ab@cd.ef now").take j).getLast?)
            ((s2l "mail me\nat ab@cd.ef now").drop j))) :=
  c5_email_first_match (s2l "mail me\nat ab@cd.ef now") (by decide)
